import Mathlib

/-!
# Verification of the gitporter migration engine

A shallow embedding, in Lean 4, of the core of the `gitporter` Jira→GitHub
migration tool, together with proofs of the specification's testable
properties.

The embedding covers:

* `executeWithRetry` — the retry/backoff coordinator of `RateLimiter`
  (src/utils.js).  The wrapped asynchronous operation is modelled as a
  function from the attempt index to an `Except` outcome; the embedding
  returns the surfaced result, the number of invocations, and the list of
  back-off delays that were slept (in milliseconds).
* `mapStatus` — the `StatusMapper` heuristic (src/utils.js).
* `extractTextFromADF` — the ADF (Atlassian Document Format) tree walker of
  `MarkdownConverter` (src/utils.js), over a faithful tree datatype.
* `processIssue`, `processIssuesBatch`, `migrateRun` — the migration state
  machine and batch scheduler of `Migrator` (src/migrator.js).  Remote
  collaborators are modelled by a `World` record of call outcomes, and every
  outward call is recorded in an explicit `Effect` trace, so that statements
  such as "the skip path issues zero destination-creating calls" or "the
  mapping store is written exactly three times" become statements about the
  trace.

JavaScript-specific behaviours are carried over explicitly where they
matter: `undefined < 500` evaluates to `false` (so an error without a
status is treated as retryable), the empty string is falsy (so a falsy
mapping entry falls through to the default heuristic), and `x || d`
returns `d` on `0`/`""`/absent values.
-/

namespace GitPorter

/-! ## Retry coordinator (`RateLimiter.executeWithRetry`, src/utils.js) -/

/-- The shape of a JavaScript error as inspected by `executeWithRetry`:
`error.response?.status` and `error.message`. -/
structure JsError where
  status : Option Nat
  msg : String
deriving DecidableEq

/-- Test whether `pat` is a prefix of `l`. -/
def charsHavePrefix : List Char → List Char → Bool
  | [], _ => true
  | _ :: _, [] => false
  | a :: as, b :: bs => a = b && charsHavePrefix as bs

/-- Test whether `pat` occurs contiguously somewhere in `l`. -/
def charsInclude : List Char → List Char → Bool
  | [], pat => pat.isEmpty
  | c :: t, pat => charsHavePrefix pat (c :: t) || charsInclude t pat

/-- Test whether `sub` occurs as a contiguous substring of `s` (JS `String.includes`). -/
def strIncludes (s sub : String) : Bool :=
  charsInclude s.toList sub.toList

/-- Source: `error.response?.status === 429 || error.message?.includes('rate limit')
|| error.message?.includes('too many requests')`. -/
def isRateLimit (e : JsError) : Bool :=
  e.status == some 429 || strIncludes e.msg "rate limit" ||
    strIncludes e.msg "too many requests"

/-- Source: `error.response?.status < 500`.  In JavaScript a missing status
yields `undefined < 500`, which is `false`. -/
def statusBelow500 (e : JsError) : Bool :=
  match e.status with
  | some s => s < 500
  | none => false

/-- The retry loop of `executeWithRetry`, with `fuel = maxRetries - attempt`
remaining additional attempts.  `fn i` is the outcome of the `i`-th
invocation of the wrapped operation.  Returns the surfaced result, the
number of invocations made, and the list of delays slept. -/
def retryAttempts (fn : Nat → Except JsError α) (baseDelay : Nat) :
    Nat → Nat → Except JsError α × Nat × List Nat
  | attempt, 0 =>
    match fn attempt with
    | .ok a => (.ok a, 1, [])
    | .error e => (.error e, 1, [])
  | attempt, fuel + 1 =>
    match fn attempt with
    | .ok a => (.ok a, 1, [])
    | .error e =>
      if !isRateLimit e && statusBelow500 e then
        (.error e, 1, [])
      else
        let d := baseDelay * 2 ^ attempt
        let rest := retryAttempts fn baseDelay (attempt + 1) fuel
        (rest.1, rest.2.1 + 1, d :: rest.2.2)

/-- Source: `RateLimiter.executeWithRetry(fn, label)` with `this.maxRetries` and
`this.baseDelay`: a `for (attempt = 0; attempt <= maxRetries; attempt++)`
loop that returns on success, breaks on the last attempt or on a
non-rate-limit client error, and otherwise sleeps `baseDelay * 2 ^ attempt`
before the next attempt. -/
def executeWithRetry (fn : Nat → Except JsError α) (maxRetries baseDelay : Nat) :
    Except JsError α × Nat × List Nat :=
  retryAttempts fn baseDelay 0 maxRetries

/-! ## Status mapper (`StatusMapper.mapStatus`, src/utils.js) -/

/-- Association-list lookup, modelling JS object property access. -/
def alistLookup {β : Type} : List (String × β) → String → Option β
  | [], _ => none
  | (k, v) :: t, key => if k = key then some v else alistLookup t key

/-- ASCII lower-casing of one character (the fragment of JS `toLowerCase`
exercised by status names). -/
def lowerChar (c : Char) : Char :=
  if 65 ≤ c.toNat && c.toNat ≤ 90 then Char.ofNat (c.toNat + 32) else c

/-- Source: `jiraStatus.toLowerCase()`, on ASCII text. -/
def strToLower (s : String) : String :=
  ⟨s.toList.map lowerChar⟩

/-- The fallback branch of `mapStatus`: lower-case the status name and map
it to `"closed"` when it contains one of the four completion markers. -/
def defaultStatusHeuristic (jiraStatus : String) : String :=
  let lowerStatus := strToLower jiraStatus
  if strIncludes lowerStatus "done" || strIncludes lowerStatus "closed" ||
      strIncludes lowerStatus "resolved" || strIncludes lowerStatus "complete" then
    "closed"
  else
    "open"

/-- Source: `StatusMapper.mapStatus`: `const mapped = this.mapping[jiraStatus];
if (mapped) return mapped;` then the default heuristic.  A present but
empty-string entry is falsy in JS and falls through. -/
def mapStatus (mapping : List (String × String)) (jiraStatus : String) : String :=
  match alistLookup mapping jiraStatus with
  | some mapped => if mapped = "" then defaultStatusHeuristic jiraStatus else mapped
  | none => defaultStatusHeuristic jiraStatus

/-! ## Document converter (`MarkdownConverter.extractTextFromADF`, src/utils.js)

`MarkdownConverter.toMarkdown` dispatches an object with `type: 'doc'` and
a `content` array directly to `extractTextFromADF`, which is the converter
for typed document trees; the legacy wiki-markup branch goes through the
external `turndown` library and is outside this embedding.  An ADF node
carries a `type` tag, an optional literal `text`, an optional `content`
array of child nodes, and the two `attrs` fields the walker inspects
(`attrs.level` for headings, `attrs.alt` for media).  The `content` field
distinguishes "absent" from "present but empty", exactly as a JS object
does; the mutual presentation keeps every recursion structural. -/

mutual
inductive ADF : Type where
  | node (ty : String) (txt : Option String) (content : ADFContent)
      (level : Option Nat) (alt : Option String)
inductive ADFContent : Type where
  | absent
  | present (l : ADFList)
inductive ADFList : Type where
  | nil
  | cons (hd : ADF) (tl : ADFList)
end

/-- Convert a Lean list of nodes into the child-sequence representation. -/
def ADFList.ofList : List ADF → ADFList
  | [] => .nil
  | a :: t => .cons a (ADFList.ofList t)

/-- Back to a Lean list. -/
def ADFList.toList : ADFList → List ADF
  | .nil => []
  | .cons a t => a :: ADFList.toList t

/-- Concatenate a list of strings (JS `parts.flatten('')`). -/
def joinAll : List String → String
  | [] => ""
  | a :: t => a ++ joinAll t

/-- JS `String.trim`: drop leading and trailing whitespace. -/
def strTrim (s : String) : String :=
  ⟨((s.toList.dropWhile Char.isWhitespace).reverse.dropWhile Char.isWhitespace).reverse⟩

/-- Evaluate `x || d` on an optional string; the empty string is falsy (JS). -/
def strOrDefault (o : Option String) (d : String) : String :=
  match o with
  | some s => if s = "" then d else s
  | none => d

/-- Source: `adfContent.attrs?.level || 1`: a missing — or `0`, which is falsy —
level becomes `1`. -/
def headingLevel (level : Option Nat) : Nat :=
  match level with
  | some n => if n = 0 then 1 else n
  | none => 1

mutual
/-- Source: `MarkdownConverter.extractTextFromADF`, the recursive ADF walker.  The
branch order mirrors the source's `if`/`else if` chain on `adfContent.type`;
branches that read `adfContent.content` emit nothing when it is absent. -/
def extractTextFromADF : ADF → String
  | .node ty txt content level alt =>
    if ty = "text" then
      (txt.getD "")
    else if ty = "hardBreak" then
      "\n"
    else if ty = "paragraph" then
      match content with
      | .present l => joinAll (extractEach l) ++ "\n\n"
      | .absent => ""
    else if ty = "orderedList" || ty = "bulletList" then
      match content with
      | .present l => listItemLines (ty = "orderedList") 0 l ++ "\n"
      | .absent => ""
    else if ty = "listItem" then
      match content with
      | .present l => strTrim (joinAll (extractEach l))
      | .absent => ""
    else if ty = "codeBlock" then
      match content with
      | .present l => "```\n" ++ joinAll (extractEach l) ++ "\n```\n\n"
      | .absent => ""
    else if ty = "heading" then
      match content with
      | .present l =>
        String.mk (List.replicate (headingLevel level) '#') ++ " " ++
          joinAll (extractEach l) ++ "\n\n"
      | .absent => ""
    else if ty = "media" || ty = "mediaSingle" || ty = "mediaGroup" then
      "[" ++ strOrDefault alt "attachment" ++ "]"
    else
      match content with
      | .present l => joinAll (extractEach l)
      | .absent => ""

/-- Source: `content.map(node => this.extractTextFromADF(node))`. -/
def extractEach : ADFList → List String
  | .nil => []
  | .cons a t => extractTextFromADF a :: extractEach t

/-- The `forEach((item, index) => ...)` body of the list branches: one line
per child, prefixed `"{index+1}. "` (ordered) or `"- "` (bullet), the
child's extracted text trimmed. -/
def listItemLines (ordered : Bool) (idx : Nat) : ADFList → String
  | .nil => ""
  | .cons item t =>
    let marker := if ordered then toString (idx + 1) ++ ". " else "- "
    marker ++ strTrim (extractTextFromADF item) ++ "\n" ++ listItemLines ordered (idx + 1) t
end

/-- An ADF node with only a `type` and children, as built by tests. -/
def adfParent (ty : String) (children : List ADF) : ADF :=
  .node ty none (.present (ADFList.ofList children)) none none

/-- An ADF text leaf. -/
def adfText (s : String) : ADF :=
  .node "text" (some s) .absent none none

/-! ## Migration state machine and batch scheduler (`Migrator`, src/migrator.js)

`Migrator.processIssue` is re-expressed as a pure function.  The outcomes
of the remote collaborators (GitHub search, label creation, issue creation,
Jira comment fetch, GitHub comment creation) are supplied by a `World`
record; `processIssue` returns the updated mapping table, the updated run
statistics, and the ordered trace of outward calls it made.  A JavaScript
`throw` out of a collaborator is an `Except.error` outcome, and the
`try`/`catch` of `processIssue` becomes the explicit error branches below.
The `migratedAt` wall-clock timestamp carries no information for the
properties below and is omitted from the record. -/

/-- One entry of `mapping.json` (`this.mapping[jiraKey]`).  Success entries
fill `githubNumber`/`githubUrl`; error entries fill `errMsg` (field `error`
in the source). -/
structure MappingRecord where
  githubNumber : Option Nat
  githubUrl : Option String
  status : String
  errMsg : Option String
deriving DecidableEq

/-- The mapping table, keyed by Jira issue key.  JS object semantics:
assignment overwrites in place, new keys are appended. -/
abbrev Mapping : Type := List (String × MappingRecord)

/-- Source: `this.stats` of the `Migrator` constructor. -/
structure Stats where
  processed : Nat
  created : Nat
  skipped : Nat
  errors : Nat
  comments : Nat
  attachments : Nat
deriving DecidableEq

/-- The all-zero statistics the run starts from. -/
def Stats.zero : Stats := ⟨0, 0, 0, 0, 0, 0⟩

/-- The slice of a created/found GitHub issue that the migrator records. -/
structure GhIssue where
  number : Nat
  html_url : String
deriving DecidableEq

/-- The slice of a Jira issue that drives the control flow of
`processIssue`: its key and how many attachments it carries
(`fields.attachment.length`).  Titles, bodies and labels are pure string
assembly and do not influence which calls are made. -/
structure JiraIssue where
  key : String
  summary : String
  attachmentCount : Nat
deriving DecidableEq

/-- The run-level configuration consumed by the engine. -/
structure MigrationConfig where
  dryRun : Bool
  batchSize : Nat
deriving DecidableEq

/-- Outcomes of the remote collaborator calls for one item, as observed at
the orchestrator's call sites.  `createComment i` is the outcome of posting
the `i`-th comment.  (The shipped GitHub client additionally swallows some
of these failures internally — e.g. `findExistingIssue` returns `null` on a
search error — so quantifying over all outcome combinations covers it.) -/
structure World where
  findExisting : Except JsError (Option GhIssue)
  handleAttachments : Except JsError String
  ensureLabels : Except JsError Unit
  createIssue : Except JsError GhIssue
  getComments : Except JsError Nat
  createComment : Nat → Except JsError Unit

/-- The outward calls the engine can make, in the order it makes them.
`saveMapping` carries the snapshot that was persisted. -/
inductive Effect : Type where
  | findExisting (jiraKey : String)
  | handleAttachments (jiraKey : String)
  | ensureLabels (jiraKey : String)
  | createIssue (jiraKey : String)
  | getComments (jiraKey : String)
  | createComment (jiraKey : String)
  | saveMapping (snapshot : List (String × MappingRecord))
deriving DecidableEq

/-- Calls that create state at the destination: label creation, issue
creation, comment creation.  Searches, comment fetches and link-strategy
attachment handling only read. -/
def Effect.isDestinationWrite : Effect → Bool
  | .ensureLabels _ => true
  | .createIssue _ => true
  | .createComment _ => true
  | _ => false

/-- JS object assignment `this.mapping[key] = record`: overwrite in place
if the key is present, append otherwise. -/
def mappingSet : Mapping → String → MappingRecord → Mapping
  | [], key, r => [(key, r)]
  | (k, r') :: t, key, r =>
    if k = key then (key, r) :: t else (k, r') :: mappingSet t key r

/-- The record written on successful creation (`status: 'migrated'`). -/
def mkMigratedRecord (gh : GhIssue) : MappingRecord :=
  ⟨some gh.number, some gh.html_url, "migrated", none⟩

/-- The record written when the destination search finds an equivalent
issue (`status: 'existing'`). -/
def mkExistingRecord (gh : GhIssue) : MappingRecord :=
  ⟨some gh.number, some gh.html_url, "existing", none⟩

/-- The record written by the `catch` block (`status: 'error'`). -/
def mkErrorRecord (e : JsError) : MappingRecord :=
  ⟨none, none, "error", some e.msg⟩

/-- Source: `Migrator.convertAndCreateIssue` (together with the remote parts of
`buildGitHubBody`): handle attachments when the issue has any (counting
them into `stats.attachments` on success), then `ensureLabelsExist`, then
`createIssue`.  Title/body/label/state assembly is pure and cannot throw. -/
def convertAndCreateIssue (w : World) (issue : JiraIssue) (stats : Stats) :
    Except JsError GhIssue × Stats × List Effect :=
  if issue.attachmentCount > 0 then
    match w.handleAttachments with
    | .error e => (.error e, stats, [.handleAttachments issue.key])
    | .ok _ =>
      let stats1 := { stats with attachments := stats.attachments + issue.attachmentCount }
      match w.ensureLabels with
      | .error e => (.error e, stats1, [.handleAttachments issue.key, .ensureLabels issue.key])
      | .ok _ =>
        match w.createIssue with
        | .error e =>
          (.error e, stats1,
            [.handleAttachments issue.key, .ensureLabels issue.key, .createIssue issue.key])
        | .ok gh =>
          (.ok gh, stats1,
            [.handleAttachments issue.key, .ensureLabels issue.key, .createIssue issue.key])
  else
    match w.ensureLabels with
    | .error e => (.error e, stats, [.ensureLabels issue.key])
    | .ok _ =>
      match w.createIssue with
      | .error e => (.error e, stats, [.ensureLabels issue.key, .createIssue issue.key])
      | .ok gh => (.ok gh, stats, [.ensureLabels issue.key, .createIssue issue.key])

/-- The `for (const comment of comments)` loop of `migrateComments`:
`i` counts created comments so far, the last argument is how many remain.
A failing `createComment` throws out of the loop (the comments counter is
not bumped for the failing comment, and no further comment is attempted);
the throw is caught by `migrateComments`' own `catch`. -/
def migrateCommentLoop (w : World) (jiraKey : String) (stats : Stats) :
    Nat → Nat → Stats × List Effect
  | _, 0 => (stats, [])
  | i, n + 1 =>
    match w.createComment i with
    | .error _ => (stats, [.createComment jiraKey])
    | .ok _ =>
      let stats1 := { stats with comments := stats.comments + 1 }
      let rest := migrateCommentLoop w jiraKey stats1 (i + 1) n
      (rest.1, .createComment jiraKey :: rest.2)

/-- Source: `Migrator.migrateComments`: fetch the comments, replicate them in
order, and swallow (log only) any exception raised along the way. -/
def migrateComments (w : World) (jiraKey : String) (stats : Stats) :
    Stats × List Effect :=
  match w.getComments with
  | .error _ => (stats, [.getComments jiraKey])
  | .ok n =>
    let rest := migrateCommentLoop w jiraKey stats 0 n
    (rest.1, .getComments jiraKey :: rest.2)

/-- The body of `processIssue` after the already-migrated/already-existing
skip checks (a prior `error` entry only adds a log line and ends up here
as well).  `stats0` already includes the `processed` increment. -/
def processIssueMain (cfg : MigrationConfig) (w : World) (m : Mapping)
    (stats0 : Stats) (issue : JiraIssue) : Mapping × Stats × List Effect :=
  match w.findExisting with
  | .error e =>
    (mappingSet m issue.key (mkErrorRecord e),
      { stats0 with errors := stats0.errors + 1 }, [.findExisting issue.key])
  | .ok (some gh) =>
    (mappingSet m issue.key (mkExistingRecord gh),
      { stats0 with skipped := stats0.skipped + 1 }, [.findExisting issue.key])
  | .ok none =>
    if cfg.dryRun then
      (m, { stats0 with created := stats0.created + 1 }, [.findExisting issue.key])
    else
      match convertAndCreateIssue w issue stats0 with
      | (.error e, stats1, effs) =>
        (mappingSet m issue.key (mkErrorRecord e),
          { stats1 with errors := stats1.errors + 1 }, .findExisting issue.key :: effs)
      | (.ok gh, stats1, effs) =>
        (mappingSet m issue.key (mkMigratedRecord gh),
          { (migrateComments w issue.key stats1).1 with
            created := (migrateComments w issue.key stats1).1.created + 1 },
          .findExisting issue.key :: effs ++ (migrateComments w issue.key stats1).2)

/-- Source: `Migrator.processIssue`: bump `processed`, skip if the mapping already
holds a `migrated` or `existing` entry for the key, and otherwise run the
search/dry-run/create/record state machine with its surrounding
`try`/`catch`. -/
def processIssue (cfg : MigrationConfig) (w : World) (m : Mapping)
    (stats : Stats) (issue : JiraIssue) : Mapping × Stats × List Effect :=
  match alistLookup m issue.key with
  | some r =>
    if r.status = "migrated" then
      (m, { stats with processed := stats.processed + 1, skipped := stats.skipped + 1 }, [])
    else if r.status = "existing" then
      (m, { stats with processed := stats.processed + 1, skipped := stats.skipped + 1 }, [])
    else
      processIssueMain cfg w m { stats with processed := stats.processed + 1 } issue
  | none => processIssueMain cfg w m { stats with processed := stats.processed + 1 } issue

/-- Source: `Migrator.chunkArray`: `for (i = 0; i < array.length; i += size)` with
`slice(i, i + size)`.  (With `size = 0` the JS loop would not terminate;
the engine only calls this with the positive configured batch size.) -/
def chunkArray {α : Type} (l : List α) (size : Nat) : List (List α) :=
  if l.isEmpty then []
  else if size = 0 then []
  else l.take size :: chunkArray (l.drop size) size
termination_by l.length
decreasing_by
  rename_i h1 h2
  simp [List.isEmpty_iff] at h1
  have hl : 0 < l.length := List.length_pos.mpr h1
  simp [List.length_drop]
  omega

/-- Sequential processing of one batch: `for (const jiraIssue of batch)
await this.processIssue(...)`.  Each item's collaborator outcomes are
drawn from `env` by the item's key. -/
def processBatch (cfg : MigrationConfig) (env : String → World) :
    List JiraIssue → Mapping → Stats → Mapping × Stats × List Effect
  | [], m, s => (m, s, [])
  | issue :: rest, m, s =>
    let step := processIssue cfg (env issue.key) m s issue
    let tail := processBatch cfg env rest step.1 step.2.1
    (tail.1, tail.2.1, step.2.2 ++ tail.2.2)

/-- The batch loop of `processIssuesBatch`: process each batch, then
`await this.saveMapping(...)` — the checkpoint write — after it. -/
def runBatches (cfg : MigrationConfig) (env : String → World) :
    List (List JiraIssue) → Mapping → Stats → Mapping × Stats × List Effect
  | [], m, s => (m, s, [])
  | b :: bs, m, s =>
    let done := processBatch cfg env b m s
    let tail := runBatches cfg env bs done.1 done.2.1
    (tail.1, tail.2.1, done.2.2 ++ Effect.saveMapping done.1 :: tail.2.2)

/-- Source: `Migrator.processIssuesBatch`: chunk the issue list by the configured
batch size and run the batch loop. -/
def processIssuesBatch (cfg : MigrationConfig) (env : String → World)
    (issues : List JiraIssue) (m : Mapping) (s : Stats) :
    Mapping × Stats × List Effect :=
  runBatches cfg env (chunkArray issues cfg.batchSize) m s

/-- The tail of `Migrator.migrate` once the issues are fetched: process the
batches, then `await this.saveMapping(...)` once more — the final write of
line 70 — before reporting the statistics. -/
def migrateRun (cfg : MigrationConfig) (env : String → World)
    (issues : List JiraIssue) (m : Mapping) (s : Stats) :
    Mapping × Stats × List Effect :=
  let done := processIssuesBatch cfg env issues m s
  (done.1, done.2.1, done.2.2 ++ [Effect.saveMapping done.1])

/-- The mapping-store snapshots persisted during a trace, in order. -/
def saveSnapshots (effs : List Effect) : List (List (String × MappingRecord)) :=
  effs.filterMap fun e =>
    match e with
    | .saveMapping snap => some snap
    | _ => none

/-- Running totals of a list of batch sizes starting from `acc`: the
expected record counts of the successive checkpoint snapshots. -/
def runningTotals (acc : Nat) : List Nat → List Nat
  | [] => []
  | n :: t => (acc + n) :: runningTotals (acc + n) t

/-- How many destination comments a trace creates. -/
def countCommentCreations (effs : List Effect) : Nat :=
  (effs.filter fun e =>
    match e with
    | .createComment _ => true
    | _ => false).length

/-- The error that the `try` block of `processIssue` would raise, if any,
read off from the collaborator outcomes along the executed path.  The
sub-protocol part (`convertAndCreateIssue`). -/
def creationError (w : World) (issue : JiraIssue) : Option JsError :=
  if issue.attachmentCount > 0 then
    match w.handleAttachments with
    | .error e => some e
    | .ok _ =>
      match w.ensureLabels with
      | .error e => some e
      | .ok _ =>
        match w.createIssue with
        | .error e => some e
        | .ok _ => none
  else
    match w.ensureLabels with
    | .error e => some e
    | .ok _ =>
      match w.createIssue with
      | .error e => some e
      | .ok _ => none

/-- The error that the `try` block of `processIssue` would raise on the
non-skip path, if any. -/
def itemError (cfg : MigrationConfig) (w : World) (issue : JiraIssue) : Option JsError :=
  match w.findExisting with
  | .error e => some e
  | .ok (some _) => none
  | .ok none => if cfg.dryRun then none else creationError w issue

/-- Remove a key from the mapping table (the formal device for "no entry
for this key"; the source never deletes entries). -/
def alistErase {β : Type} : List (String × β) → String → List (String × β)
  | [], _ => []
  | (k, v) :: t, key =>
    if k = key then alistErase t key else (k, v) :: alistErase t key

/-! ### Concrete fixtures used by counterexamples and witnesses -/

/-- A world in which every remote call succeeds, the destination search
misses, creation yields issue 7, and there are no comments. -/
def okW : World := ⟨.ok none, .ok "", .ok (), .ok ⟨7, "u"⟩, .ok 0, fun _ => .ok ()⟩

/-- Like `okW` but the item has two comments and posting the first one
fails (the second would succeed). -/
def commentFailW : World :=
  ⟨.ok none, .ok "", .ok (), .ok ⟨7, "u"⟩, .ok 2,
   fun i => if i = 0 then .error ⟨none, "boom"⟩ else .ok ()⟩

/-- A world in which the destination search itself fails with a 500. -/
def findFailW : World :=
  ⟨.error ⟨some 500, "down"⟩, .ok "", .ok (), .ok ⟨7, "u"⟩, .ok 0, fun _ => .ok ()⟩

/-- A non-dry-run configuration with the default batch size. -/
def demoCfg : MigrationConfig := ⟨false, 10⟩

/-- A demo item with no attachments. -/
def demoIssue : JiraIssue := ⟨"X-1", "t", 0⟩

/-- A list of 23 items with pairwise distinct keys `K-1` … `K-23`. -/
def demoIssues23 : List JiraIssue :=
  (List.range 23).map fun i => ⟨"K-" ++ toString (i + 1), "t", 0⟩

/-- The document tree of the spec's conversion scenario:
`paragraph("Hello"), bulletList[item("A"), item("B")]`. -/
def demoDoc : ADF :=
  adfParent "doc"
    [adfParent "paragraph" [adfText "Hello"],
     adfParent "bulletList"
       [adfParent "listItem" [adfParent "paragraph" [adfText "A"]],
        adfParent "listItem" [adfParent "paragraph" [adfText "B"]]]]

/-- Split a character list at newlines. -/
def splitNewlines : List Char → List (List Char)
  | [] => [[]]
  | a :: t =>
    match splitNewlines t with
    | [] => [[]]
    | h :: r => if a = '\n' then [] :: h :: r else (a :: h) :: r

/-- The lines of a string (separator `'\n'`, JS `split('\n')`). -/
def textLines (s : String) : List String :=
  (splitNewlines s.toList).map fun l => ⟨l⟩

/-! ## Lemmas about the retry coordinator -/

/-- A transient failure in the spec's sense: an explicit rate-limit signal
or a server-class (5xx) status. -/
def transientError (e : JsError) : Prop :=
  isRateLimit e = true ∨ ∃ s, e.status = some s ∧ 500 ≤ s

lemma transient_not_fatal {e : JsError} (h : transientError e) :
    (!isRateLimit e && statusBelow500 e) = false := by
  rcases h with h | ⟨s, hs, h5⟩
  · simp [h]
  · cases hrl : isRateLimit e
    · simp only [hrl, Bool.not_false, Bool.true_and, statusBelow500, hs]
      simp only [decide_eq_false_iff_not]
      omega
    · simp [hrl]

lemma retryAttempts_allFail {α : Type} (fn : Nat → Except JsError α)
    (errs : Nat → JsError) (baseDelay : Nat)
    (hfail : ∀ i, fn i = .error (errs i))
    (htrans : ∀ i, transientError (errs i)) :
    ∀ fuel attempt, retryAttempts fn baseDelay attempt fuel =
      (.error (errs (attempt + fuel)), fuel + 1,
        (List.range fuel).map fun i => baseDelay * 2 ^ (attempt + i)) := by
  intro fuel
  induction fuel with
  | zero => intro attempt; simp [retryAttempts, hfail attempt]
  | succ n ih =>
    intro attempt
    have hc := transient_not_fatal (htrans attempt)
    have hrec := ih (attempt + 1)
    have h1 : attempt + 1 + n = attempt + (n + 1) := by omega
    have h2 : (List.range (n + 1)).map (fun i => baseDelay * 2 ^ (attempt + i)) =
        baseDelay * 2 ^ attempt ::
          (List.range n).map fun i => baseDelay * 2 ^ (attempt + 1 + i) := by
      rw [List.range_succ_eq_map, List.map_cons, List.map_map]
      rw [Nat.add_zero]
      congr 1
      apply List.map_congr_left
      intro i _
      simp only [Function.comp]
      congr 2
      omega
    simp only [retryAttempts, hfail attempt, hc, Bool.false_eq_true, if_false, hrec, h2]
    rw [h1]

/-! ## Lemmas connecting `strIncludes` to `List.IsInfix` -/

lemma charsHavePrefix_iff (pat l : List Char) :
    charsHavePrefix pat l = true ↔ pat <+: l := by
  induction pat generalizing l with
  | nil => simp [charsHavePrefix]
  | cons a as ih =>
    cases l with
    | nil => simp [charsHavePrefix]
    | cons b bs =>
      simp only [charsHavePrefix, Bool.and_eq_true, decide_eq_true_eq, ih,
        List.cons_prefix_cons]

lemma charsInclude_iff (l pat : List Char) :
    charsInclude l pat = true ↔ pat <:+: l := by
  induction l with
  | nil => simp [charsInclude, List.isEmpty_iff]
  | cons c t ih =>
    simp only [charsInclude, Bool.or_eq_true, charsHavePrefix_iff, ih,
      List.infix_cons_iff]

lemma strIncludes_iff (s sub : String) :
    strIncludes s sub = true ↔ sub.toList <:+: s.toList := by
  simp [strIncludes, charsInclude_iff]

/-! ## Claim theorems: retry coordinator -/

/-- C2.  If the wrapped operation fails with a transient error (a rate-limit
signal or a 5xx status) on every attempt, `executeWithRetry` invokes it
exactly `maxRetries + 1` times, sleeps `baseDelay * 2 ^ attempt` for
`attempt = 0, …, maxRetries - 1` between consecutive attempts (no jitter —
the delay list is exactly determined), and surfaces the last error. -/
theorem executeWithRetry_transient_exhaustion {α : Type}
    (fn : Nat → Except JsError α) (errs : Nat → JsError) (maxRetries baseDelay : Nat)
    (hfail : ∀ i, fn i = .error (errs i))
    (htrans : ∀ i, isRateLimit (errs i) = true ∨ ∃ s, (errs i).status = some s ∧ 500 ≤ s) :
    executeWithRetry fn maxRetries baseDelay =
      (.error (errs maxRetries), maxRetries + 1,
        (List.range maxRetries).map fun i => baseDelay * 2 ^ i) := by
  have h := retryAttempts_allFail fn errs baseDelay hfail htrans maxRetries 0
  simpa [executeWithRetry] using h

/-- Witness for C2: four attempts against a permanently unavailable (503)
service with `maxRetries = 3`, `baseDelay = 1000`: delays 1000, 2000, 4000
and the last error surfaced. -/
theorem executeWithRetry_transient_exhaustion_witness :
    executeWithRetry (fun _ => (.error ⟨some 503, "unavailable"⟩ : Except JsError Unit))
        3 1000 =
      (.error ⟨some 503, "unavailable"⟩, 4, [1000, 2000, 4000]) := by
  have h := executeWithRetry_transient_exhaustion
    (fun _ => (.error ⟨some 503, "unavailable"⟩ : Except JsError Unit))
    (fun _ => ⟨some 503, "unavailable"⟩) 3 1000 (fun _ => rfl)
    (fun _ => Or.inr ⟨503, rfl, by omega⟩)
  exact h.trans rfl

/-- C4.  A client-class error that is not a rate-limit error (no 429
status, no rate-limit marker in the message) is fatal at once: the
operation is invoked exactly once, no delay is slept, and the error is
surfaced immediately. -/
theorem executeWithRetry_fatal_short_circuit {α : Type}
    (fn : Nat → Except JsError α) (e : JsError) (maxRetries baseDelay : Nat)
    (h0 : fn 0 = .error e) (hnr : isRateLimit e = false)
    (hcl : ∃ s, e.status = some s ∧ s < 500) :
    executeWithRetry fn maxRetries baseDelay = (.error e, 1, []) := by
  obtain ⟨s, hs, h5⟩ := hcl
  have hc : (!isRateLimit e && statusBelow500 e) = true := by
    simp only [hnr, Bool.not_false, Bool.true_and, statusBelow500, hs]
    simpa using h5
  cases maxRetries with
  | zero => simp [executeWithRetry, retryAttempts, h0]
  | succ n => simp [executeWithRetry, retryAttempts, h0, hc]

/-- Witness for C4: a 404 with a plain message is surfaced after exactly
one call even though three retries were allowed. -/
theorem executeWithRetry_fatal_short_circuit_witness :
    executeWithRetry (fun _ => (.error ⟨some 404, "Not Found"⟩ : Except JsError Unit))
        3 1000 =
      (.error ⟨some 404, "Not Found"⟩, 1, []) := by
  exact executeWithRetry_fatal_short_circuit
    (fun _ => (.error ⟨some 404, "Not Found"⟩ : Except JsError Unit))
    ⟨some 404, "Not Found"⟩ 3 1000 rfl (by decide) ⟨404, rfl, by omega⟩

/-! ## Claim theorems: status mapper -/

/-- C8.  `mapStatus` returns the explicit mapping-table entry when one is
present (and non-empty — any real table maps to `"open"`/`"closed"`);
with no entry it returns `"closed"` exactly when the lower-cased status
name contains `"done"`, `"closed"`, `"resolved"` or `"complete"` as a
substring, and `"open"` for every other name; in particular
`mapStatus [] "Resolved" = "closed"` and `mapStatus [] "In Review" = "open"`. -/
theorem mapStatus_explicit_and_heuristic (mapping : List (String × String))
    (st v : String) :
    (alistLookup mapping st = some v → v ≠ "" → mapStatus mapping st = v) ∧
    (alistLookup mapping st = none →
      (mapStatus mapping st = "closed" ∨ mapStatus mapping st = "open") ∧
      (mapStatus mapping st = "closed" ↔
        ("done".toList <:+: (strToLower st).toList ∨
         "closed".toList <:+: (strToLower st).toList ∨
         "resolved".toList <:+: (strToLower st).toList ∨
         "complete".toList <:+: (strToLower st).toList))) ∧
    mapStatus [] "Resolved" = "closed" ∧ mapStatus [] "In Review" = "open" := by
  refine ⟨?_, ?_, by decide, by decide⟩
  · intro hl hv
    simp [mapStatus, hl, hv]
  · intro hl
    have hiff : (strIncludes (strToLower st) "done" ||
        strIncludes (strToLower st) "closed" ||
        strIncludes (strToLower st) "resolved" ||
        strIncludes (strToLower st) "complete") = true ↔
        ("done".toList <:+: (strToLower st).toList ∨
         "closed".toList <:+: (strToLower st).toList ∨
         "resolved".toList <:+: (strToLower st).toList ∨
         "complete".toList <:+: (strToLower st).toList) := by
      simp only [Bool.or_eq_true, strIncludes_iff]
      tauto
    simp only [mapStatus, hl, defaultStatusHeuristic]
    cases hcond : (strIncludes (strToLower st) "done" ||
        strIncludes (strToLower st) "closed" ||
        strIncludes (strToLower st) "resolved" ||
        strIncludes (strToLower st) "complete") with
    | false =>
      rw [if_neg (by simp)]
      refine ⟨Or.inr rfl, fun h => absurd h (by decide),
        fun hc => Bool.noConfusion (hcond.symm.trans (hiff.mpr hc))⟩
    | true =>
      rw [if_pos rfl]
      exact ⟨Or.inl rfl, fun _ => hiff.mp hcond, fun _ => rfl⟩

/-- Witness for C8: an explicit entry wins; without one, "Resolved" closes
and "In Review" stays open. -/
theorem mapStatus_explicit_and_heuristic_witness :
    mapStatus [("Custom", "closed")] "Custom" = "closed" ∧
    mapStatus [] "Resolved" = "closed" ∧ mapStatus [] "In Review" = "open" := by
  refine ⟨?_, ?_, ?_⟩
  · exact (mapStatus_explicit_and_heuristic [("Custom", "closed")] "Custom" "closed").1
      rfl (by decide)
  · exact (mapStatus_explicit_and_heuristic [] "Resolved" "").2.2.1
  · exact (mapStatus_explicit_and_heuristic [] "In Review" "").2.2.2

/-! ## Claim theorems: document converter -/

lemma listItemLines_ofList (ordered : Bool) (xs : List ADF) :
    ∀ idx, listItemLines ordered idx (ADFList.ofList xs) =
      joinAll ((List.enumFrom idx xs).map fun p =>
        (if ordered then toString (p.1 + 1) ++ ". " else "- ") ++
          strTrim (extractTextFromADF p.2) ++ "\n") := by
  induction xs with
  | nil => intro idx; rfl
  | cons hd tl ih =>
    intro idx
    simp only [ADFList.ofList, listItemLines, List.enumFrom, List.map_cons, joinAll,
      ih (idx + 1)]

/-- C9.  `bulletList` and `orderedList` nodes emit one line per child —
prefixed `"- "` respectively `"{n}. "` with `n` the 1-based child index —
each child's extracted text trimmed, followed by one extra newline (the
blank line); and the spec's concrete tree `paragraph("Hello"),
bulletList[item("A"), item("B")]` converts to text whose lines are exactly
`"Hello"`, `""`, `"- A"`, `"- B"`, `""`, `""` — so `"Hello"`, `"- A"`,
`"- B"` appear on separate lines in that order. -/
theorem extractTextFromADF_list_structure (txt : Option String) (lv : Option Nat)
    (al : Option String) (xs : List ADF) :
    extractTextFromADF (ADF.node "bulletList" txt (.present (ADFList.ofList xs)) lv al) =
      joinAll ((List.enumFrom 0 xs).map fun p =>
        "- " ++ strTrim (extractTextFromADF p.2) ++ "\n") ++ "\n" ∧
    extractTextFromADF (ADF.node "orderedList" txt (.present (ADFList.ofList xs)) lv al) =
      joinAll ((List.enumFrom 0 xs).map fun p =>
        toString (p.1 + 1) ++ ". " ++ strTrim (extractTextFromADF p.2) ++ "\n") ++ "\n" ∧
    textLines (extractTextFromADF demoDoc) = ["Hello", "", "- A", "- B", "", ""] := by
  refine ⟨?_, ?_, by decide⟩
  · exact congrArg (· ++ "\n") (listItemLines_ofList false xs 0)
  · exact congrArg (· ++ "\n") (listItemLines_ofList true xs 0)

/-! ## Lemmas about the mapping table -/

lemma alistLookup_mappingSet_self (m : Mapping) (key : String) (r : MappingRecord) :
    alistLookup (mappingSet m key r) key = some r := by
  induction m with
  | nil => simp [mappingSet, alistLookup]
  | cons p t ih =>
    obtain ⟨k, v⟩ := p
    by_cases h : k = key
    · simp [mappingSet, h, alistLookup]
    · simp [mappingSet, h, alistLookup, ih]

lemma alistLookup_mappingSet_ne (m : Mapping) (key k : String) (r : MappingRecord)
    (h : k ≠ key) : alistLookup (mappingSet m key r) k = alistLookup m k := by
  have hne : ¬ key = k := fun hh => h hh.symm
  induction m with
  | nil => simp [mappingSet, alistLookup, hne]
  | cons p t ih =>
    obtain ⟨k', v⟩ := p
    by_cases h' : k' = key
    · subst h'
      simp [mappingSet, alistLookup, hne]
    · by_cases hk : k' = k
      · subst hk
        simp [mappingSet, h', alistLookup]
      · simp [mappingSet, h', alistLookup, hk, ih]

lemma alistLookup_erase_self {β : Type} (m : List (String × β)) (key : String) :
    alistLookup (alistErase m key) key = none := by
  induction m with
  | nil => rfl
  | cons p t ih =>
    obtain ⟨k, v⟩ := p
    by_cases h : k = key
    · simp [alistErase, h, ih]
    · simp [alistErase, h, alistLookup, ih]

lemma alistLookup_erase_ne {β : Type} (m : List (String × β)) (key k : String)
    (h : k ≠ key) : alistLookup (alistErase m key) k = alistLookup m k := by
  have hne : ¬ key = k := fun hh => h hh.symm
  induction m with
  | nil => rfl
  | cons p t ih =>
    obtain ⟨k', v⟩ := p
    by_cases h' : k' = key
    · subst h'
      simp [alistErase, alistLookup, hne, ih]
    · by_cases hk : k' = k
      · subst hk
        simp [alistErase, h', alistLookup]
      · simp [alistErase, h', alistLookup, hk, ih]

/-! ## Claim theorems: idempotent skip (C1) -/

/-- C1 (amended).  For an item whose mapping entry has status `migrated` or
`existing`, `processIssue` makes no outward call at all — in particular no
destination-creating call — leaves the mapping unchanged, and its
statistics delta is `{processed: 1, skipped: 1}` with every other counter
unchanged. -/
theorem processIssue_skip_is_noop (cfg : MigrationConfig) (w : World) (m : Mapping)
    (s : Stats) (issue : JiraIssue) (r : MappingRecord)
    (hl : alistLookup m issue.key = some r)
    (hst : r.status = "migrated" ∨ r.status = "existing") :
    processIssue cfg w m s issue =
      (m, { s with processed := s.processed + 1, skipped := s.skipped + 1 }, []) := by
  rcases hst with h | h
  · simp [processIssue, hl, h]
  · simp [processIssue, hl, h]

/-- Witness for C1 (amended): a concrete already-migrated item. -/
theorem processIssue_skip_is_noop_witness :
    processIssue demoCfg okW [("X-1", mkMigratedRecord ⟨7, "u"⟩)] Stats.zero demoIssue =
      ([("X-1", mkMigratedRecord ⟨7, "u"⟩)], ⟨1, 0, 1, 0, 0, 0⟩, []) := by
  exact processIssue_skip_is_noop demoCfg okW [("X-1", mkMigratedRecord ⟨7, "u"⟩)]
    Stats.zero demoIssue (mkMigratedRecord ⟨7, "u"⟩) rfl (Or.inl rfl)

/-- Counterexample to C1 as stated: on the skip path the `processed`
counter is also incremented (`this.stats.processed++` runs before the skip
checks), so the delta is not `{skipped: 1, all other counters: 0}` — from
all-zero statistics the result is `processed = 1 ≠ 0`. -/
theorem processIssue_skip_delta_counterexample :
    (processIssue demoCfg okW [("X-1", mkMigratedRecord ⟨7, "u"⟩)] Stats.zero
        demoIssue).2.1 = ⟨1, 0, 1, 0, 0, 0⟩ ∧
    (⟨1, 0, 1, 0, 0, 0⟩ : Stats) ≠ ⟨0, 0, 1, 0, 0, 0⟩ := by
  refine ⟨by decide, by decide⟩

/-! ## Claim theorems: dry-run frame property (C7) -/

/-- C7.  For an unseen item whose destination search finds nothing, with
dry-run active, `processIssue` bumps `created` (and `processed`), performs
only the read-only search call — no destination-mutating call — and leaves
the mapping table entirely unchanged: no record is persisted for the key. -/
theorem processIssue_dry_run_frame (cfg : MigrationConfig) (w : World) (m : Mapping)
    (s : Stats) (issue : JiraIssue)
    (hnew : alistLookup m issue.key = none) (hdr : cfg.dryRun = true)
    (hfind : w.findExisting = .ok none) :
    processIssue cfg w m s issue =
      (m, { s with processed := s.processed + 1, created := s.created + 1 },
        [.findExisting issue.key]) ∧
    ∀ e ∈ (processIssue cfg w m s issue).2.2, e.isDestinationWrite = false := by
  have h : processIssue cfg w m s issue =
      (m, { s with processed := s.processed + 1, created := s.created + 1 },
        [.findExisting issue.key]) := by
    simp [processIssue, hnew, processIssueMain, hfind, hdr]
  refine ⟨h, ?_⟩
  rw [h]
  intro e he
  simp only [List.mem_singleton] at he
  subst he
  rfl

/-- Witness for C7: a concrete dry run against an empty mapping. -/
theorem processIssue_dry_run_frame_witness :
    processIssue ⟨true, 10⟩ okW [] Stats.zero demoIssue =
      ([], ⟨1, 1, 0, 0, 0, 0⟩, [.findExisting "X-1"]) := by
  have h := processIssue_dry_run_frame ⟨true, 10⟩ okW [] Stats.zero demoIssue rfl rfl rfl
  exact h.1.trans rfl

/-! ## Statistics frame lemmas -/

lemma migrateCommentLoop_stats (w : World) (jiraKey : String) :
    ∀ (n i : Nat) (s : Stats),
      (migrateCommentLoop w jiraKey s i n).1.processed = s.processed ∧
      (migrateCommentLoop w jiraKey s i n).1.created = s.created ∧
      (migrateCommentLoop w jiraKey s i n).1.skipped = s.skipped ∧
      (migrateCommentLoop w jiraKey s i n).1.errors = s.errors ∧
      (migrateCommentLoop w jiraKey s i n).1.attachments = s.attachments := by
  intro n
  induction n with
  | zero => intro i s; exact ⟨rfl, rfl, rfl, rfl, rfl⟩
  | succ k ih =>
    intro i s
    simp only [migrateCommentLoop]
    cases hc : w.createComment i with
    | error e => exact ⟨rfl, rfl, rfl, rfl, rfl⟩
    | ok u => exact ih (i + 1) { s with comments := s.comments + 1 }

lemma migrateComments_stats (w : World) (jiraKey : String) (s : Stats) :
    (migrateComments w jiraKey s).1.processed = s.processed ∧
    (migrateComments w jiraKey s).1.created = s.created ∧
    (migrateComments w jiraKey s).1.skipped = s.skipped ∧
    (migrateComments w jiraKey s).1.errors = s.errors ∧
    (migrateComments w jiraKey s).1.attachments = s.attachments := by
  unfold migrateComments
  cases hg : w.getComments with
  | error e => exact ⟨rfl, rfl, rfl, rfl, rfl⟩
  | ok n => exact migrateCommentLoop_stats w jiraKey n 0 s

lemma convertAndCreateIssue_stats (w : World) (issue : JiraIssue) (s : Stats) :
    (convertAndCreateIssue w issue s).2.1.processed = s.processed ∧
    (convertAndCreateIssue w issue s).2.1.created = s.created ∧
    (convertAndCreateIssue w issue s).2.1.skipped = s.skipped ∧
    (convertAndCreateIssue w issue s).2.1.errors = s.errors ∧
    (convertAndCreateIssue w issue s).2.1.comments = s.comments := by
  unfold convertAndCreateIssue
  by_cases ha : issue.attachmentCount > 0
  · rw [if_pos ha]
    cases w.handleAttachments with
    | error e => exact ⟨rfl, rfl, rfl, rfl, rfl⟩
    | ok t =>
      cases w.ensureLabels with
      | error e => exact ⟨rfl, rfl, rfl, rfl, rfl⟩
      | ok u =>
        cases w.createIssue with
        | error e => exact ⟨rfl, rfl, rfl, rfl, rfl⟩
        | ok gh => exact ⟨rfl, rfl, rfl, rfl, rfl⟩
  · rw [if_neg ha]
    cases w.ensureLabels with
    | error e => exact ⟨rfl, rfl, rfl, rfl, rfl⟩
    | ok u =>
      cases w.createIssue with
      | error e => exact ⟨rfl, rfl, rfl, rfl, rfl⟩
      | ok gh => exact ⟨rfl, rfl, rfl, rfl, rfl⟩

lemma processIssueMain_stats (cfg : MigrationConfig) (w : World) (m : Mapping)
    (s0 : Stats) (issue : JiraIssue) :
    (processIssueMain cfg w m s0 issue).2.1.processed = s0.processed ∧
    (((processIssueMain cfg w m s0 issue).2.1.created = s0.created + 1 ∧
      (processIssueMain cfg w m s0 issue).2.1.skipped = s0.skipped ∧
      (processIssueMain cfg w m s0 issue).2.1.errors = s0.errors) ∨
     ((processIssueMain cfg w m s0 issue).2.1.created = s0.created ∧
      (processIssueMain cfg w m s0 issue).2.1.skipped = s0.skipped + 1 ∧
      (processIssueMain cfg w m s0 issue).2.1.errors = s0.errors) ∨
     ((processIssueMain cfg w m s0 issue).2.1.created = s0.created ∧
      (processIssueMain cfg w m s0 issue).2.1.skipped = s0.skipped ∧
      (processIssueMain cfg w m s0 issue).2.1.errors = s0.errors + 1)) := by
  unfold processIssueMain
  cases hf : w.findExisting with
  | error e => exact ⟨rfl, Or.inr (Or.inr ⟨rfl, rfl, rfl⟩)⟩
  | ok o =>
    cases o with
    | some gh => exact ⟨rfl, Or.inr (Or.inl ⟨rfl, rfl, rfl⟩)⟩
    | none =>
      by_cases hdr : cfg.dryRun
      · rw [hdr]
        exact ⟨rfl, Or.inl ⟨rfl, rfl, rfl⟩⟩
      · rw [Bool.not_eq_true] at hdr
        rw [hdr]
        have hcs := convertAndCreateIssue_stats w issue s0
        rcases hconv : convertAndCreateIssue w issue s0 with ⟨res, st1, effs⟩
        rw [hconv] at hcs
        obtain ⟨h1, h2, h3, h4, h5⟩ := hcs
        cases res with
        | error e =>
          exact ⟨h1, Or.inr (Or.inr ⟨h2, h3, congrArg (· + 1) h4⟩)⟩
        | ok gh =>
          obtain ⟨g1, g2, g3, g4, g5⟩ := migrateComments_stats w issue.key st1
          exact ⟨g1.trans h1, Or.inl ⟨congrArg (· + 1) (g2.trans h2), g3.trans h3, g4.trans h4⟩⟩

/-- Case split on `processIssue`: either the skip branch fires (an entry
with status `migrated` or `existing` exists) and the call is a pure
counted skip, or the call is `processIssueMain` on the
`processed`-incremented statistics. -/
lemma processIssue_cases (cfg : MigrationConfig) (w : World) (m : Mapping)
    (s : Stats) (issue : JiraIssue) :
    (∃ r, alistLookup m issue.key = some r ∧
      (r.status = "migrated" ∨ r.status = "existing") ∧
      processIssue cfg w m s issue =
        (m, { s with processed := s.processed + 1, skipped := s.skipped + 1 }, [])) ∨
    ((∀ r, alistLookup m issue.key = some r →
        r.status ≠ "migrated" ∧ r.status ≠ "existing") ∧
      processIssue cfg w m s issue =
        processIssueMain cfg w m { s with processed := s.processed + 1 } issue) := by
  unfold processIssue
  split
  next r heq =>
    split
    next h1 => exact Or.inl ⟨r, heq, Or.inl h1, rfl⟩
    next h1 =>
      split
      next h2 => exact Or.inl ⟨r, heq, Or.inr h2, rfl⟩
      next h2 =>
        refine Or.inr ⟨?_, rfl⟩
        intro r' hr'
        rw [heq] at hr'
        obtain rfl : r = r' := by injection hr'
        exact ⟨h1, h2⟩
  next heq =>
    refine Or.inr ⟨?_, rfl⟩
    intro r hr
    rw [heq] at hr
    exact absurd hr (by simp)

/-! ## Claim theorems: statistics partition (C10) -/

/-- C10.  Every completed `processIssue` call increments `processed` by
exactly 1 and exactly one of `created`, `skipped`, `errors` by exactly 1
(all worlds, all configurations, all prior mapping states), so the
invariant `processed = created + skipped + errors` is preserved by every
item. -/
theorem processIssue_stats_partition (cfg : MigrationConfig) (w : World) (m : Mapping)
    (s : Stats) (issue : JiraIssue) :
    (processIssue cfg w m s issue).2.1.processed = s.processed + 1 ∧
    (((processIssue cfg w m s issue).2.1.created = s.created + 1 ∧
      (processIssue cfg w m s issue).2.1.skipped = s.skipped ∧
      (processIssue cfg w m s issue).2.1.errors = s.errors) ∨
     ((processIssue cfg w m s issue).2.1.created = s.created ∧
      (processIssue cfg w m s issue).2.1.skipped = s.skipped + 1 ∧
      (processIssue cfg w m s issue).2.1.errors = s.errors) ∨
     ((processIssue cfg w m s issue).2.1.created = s.created ∧
      (processIssue cfg w m s issue).2.1.skipped = s.skipped ∧
      (processIssue cfg w m s issue).2.1.errors = s.errors + 1)) ∧
    (s.processed = s.created + s.skipped + s.errors →
      (processIssue cfg w m s issue).2.1.processed =
        (processIssue cfg w m s issue).2.1.created +
          (processIssue cfg w m s issue).2.1.skipped +
          (processIssue cfg w m s issue).2.1.errors) := by
  have hshape : (processIssue cfg w m s issue).2.1.processed = s.processed + 1 ∧
      (((processIssue cfg w m s issue).2.1.created = s.created + 1 ∧
        (processIssue cfg w m s issue).2.1.skipped = s.skipped ∧
        (processIssue cfg w m s issue).2.1.errors = s.errors) ∨
       ((processIssue cfg w m s issue).2.1.created = s.created ∧
        (processIssue cfg w m s issue).2.1.skipped = s.skipped + 1 ∧
        (processIssue cfg w m s issue).2.1.errors = s.errors) ∨
       ((processIssue cfg w m s issue).2.1.created = s.created ∧
        (processIssue cfg w m s issue).2.1.skipped = s.skipped ∧
        (processIssue cfg w m s issue).2.1.errors = s.errors + 1)) := by
    rcases processIssue_cases cfg w m s issue with ⟨r, _, _, heq⟩ | ⟨_, heq⟩
    · rw [heq]
      exact ⟨rfl, Or.inr (Or.inl ⟨rfl, rfl, rfl⟩)⟩
    · rw [heq]
      exact processIssueMain_stats cfg w m { s with processed := s.processed + 1 } issue
  obtain ⟨hp, hd⟩ := hshape
  refine ⟨hp, hd, fun hinv => ?_⟩
  rcases hd with ⟨h1, h2, h3⟩ | ⟨h1, h2, h3⟩ | ⟨h1, h2, h3⟩ <;> omega

/-- Witness for C10: the invariant is preserved from the all-zero start
through a concrete successful creation. -/
theorem processIssue_stats_partition_witness :
    (processIssue demoCfg okW [] Stats.zero demoIssue).2.1.processed =
      (processIssue demoCfg okW [] Stats.zero demoIssue).2.1.created +
        (processIssue demoCfg okW [] Stats.zero demoIssue).2.1.skipped +
        (processIssue demoCfg okW [] Stats.zero demoIssue).2.1.errors := by
  exact (processIssue_stats_partition demoCfg okW [] Stats.zero demoIssue).2.2 rfl

/-! ## Lemmas about the creation sub-protocol -/

lemma convertAndCreateIssue_ok (w : World) (issue : JiraIssue) (s : Stats)
    (gh : GhIssue)
    (hatt : issue.attachmentCount = 0 ∨ ∃ t, w.handleAttachments = .ok t)
    (hlab : w.ensureLabels = .ok ())
    (hcr : w.createIssue = .ok gh) :
    ∃ st1 effs, convertAndCreateIssue w issue s = (.ok gh, st1, effs) := by
  unfold convertAndCreateIssue
  by_cases ha : issue.attachmentCount > 0
  · rcases hatt with h0 | ⟨t, ht⟩
    · omega
    · rw [if_pos ha, ht, hlab, hcr]
      exact ⟨_, _, rfl⟩
  · rw [if_neg ha, hlab, hcr]
    exact ⟨_, _, rfl⟩

lemma convertAndCreateIssue_error (w : World) (issue : JiraIssue) (s : Stats)
    (e : JsError) (h : creationError w issue = some e) :
    ∃ st1 effs, convertAndCreateIssue w issue s = (.error e, st1, effs) := by
  unfold creationError at h
  unfold convertAndCreateIssue
  by_cases ha : issue.attachmentCount > 0
  · rw [if_pos ha] at h ⊢
    cases hh : w.handleAttachments with
    | error e' =>
      rw [hh] at h
      obtain rfl : e' = e := by injection h
      exact ⟨_, _, rfl⟩
    | ok t =>
      rw [hh] at h
      cases hl : w.ensureLabels with
      | error e' =>
        rw [hl] at h
        obtain rfl : e' = e := by injection h
        exact ⟨_, _, rfl⟩
      | ok u =>
        rw [hl] at h
        cases hc : w.createIssue with
        | error e' =>
          rw [hc] at h
          obtain rfl : e' = e := by injection h
          exact ⟨_, _, rfl⟩
        | ok gh =>
          rw [hc] at h
          exact absurd h (by simp)
  · rw [if_neg ha] at h ⊢
    cases hl : w.ensureLabels with
    | error e' =>
      rw [hl] at h
      obtain rfl : e' = e := by injection h
      exact ⟨_, _, rfl⟩
    | ok u =>
      rw [hl] at h
      cases hc : w.createIssue with
      | error e' =>
        rw [hc] at h
        obtain rfl : e' = e := by injection h
        exact ⟨_, _, rfl⟩
      | ok gh =>
        rw [hc] at h
        exact absurd h (by simp)

/-! ## Claim theorems: partial failure during comment replication (C5) -/

/-- C5 (amended).  When the destination issue was created successfully, the
outcome of the comment-replication stage — whatever the comment fetch and
the individual comment posts do — cannot change the item's fate: the
mapping keeps the `migrated` entry for the key, the run's error counter is
untouched, and `created` is still incremented.  (The failure is caught by
`migrateComments`' own handler, one handler for the whole comment loop.) -/
theorem processIssue_comment_failure_isolated (cfg : MigrationConfig) (w : World)
    (m : Mapping) (s : Stats) (issue : JiraIssue) (gh : GhIssue)
    (hns : ∀ r, alistLookup m issue.key = some r →
      r.status ≠ "migrated" ∧ r.status ≠ "existing")
    (hdr : cfg.dryRun = false)
    (hfind : w.findExisting = .ok none)
    (hatt : issue.attachmentCount = 0 ∨ ∃ t, w.handleAttachments = .ok t)
    (hlab : w.ensureLabels = .ok ())
    (hcr : w.createIssue = .ok gh) :
    alistLookup (processIssue cfg w m s issue).1 issue.key =
      some (mkMigratedRecord gh) ∧
    (processIssue cfg w m s issue).2.1.errors = s.errors ∧
    (processIssue cfg w m s issue).2.1.created = s.created + 1 := by
  rcases processIssue_cases cfg w m s issue with ⟨r, hr, hst, _⟩ | ⟨_, heq⟩
  · rcases hst with h | h
    · exact absurd h (hns r hr).1
    · exact absurd h (hns r hr).2
  · rw [heq]
    obtain ⟨st1, effs, hconv⟩ := convertAndCreateIssue_ok w issue
      { s with processed := s.processed + 1 } gh hatt hlab hcr
    have hcs := convertAndCreateIssue_stats w issue { s with processed := s.processed + 1 }
    rw [hconv] at hcs
    obtain ⟨h1, h2, h3, h4, h5⟩ := hcs
    obtain ⟨g1, g2, g3, g4, g5⟩ := migrateComments_stats w issue.key st1
    unfold processIssueMain
    rw [hfind, hdr, hconv]
    exact ⟨alistLookup_mappingSet_self m issue.key (mkMigratedRecord gh),
      g4.trans h4, congrArg (· + 1) (g2.trans h2)⟩

/-- Witness for C5 (amended): with two comments and the first post failing,
the parent item still ends `migrated` with `errors = 0` and `created = 1`. -/
theorem processIssue_comment_failure_isolated_witness :
    alistLookup (processIssue demoCfg commentFailW [] Stats.zero demoIssue).1 "X-1" =
      some (mkMigratedRecord ⟨7, "u"⟩) ∧
    (processIssue demoCfg commentFailW [] Stats.zero demoIssue).2.1.errors = 0 ∧
    (processIssue demoCfg commentFailW [] Stats.zero demoIssue).2.1.created = 1 := by
  have h := processIssue_comment_failure_isolated demoCfg commentFailW [] Stats.zero
    demoIssue ⟨7, "u"⟩
    (by
      intro r hr
      have hr' : (none : Option MappingRecord) = some r := hr
      exact absurd hr' (by simp))
    rfl rfl (Or.inl rfl) rfl rfl
  exact h

/-- Counterexample to C5 as stated: the exception is not caught per-comment
but once for the whole comment loop.  With two comments fetched and the
first post failing (the second would succeed), only one `createComment`
call is made — per-comment catching would make two. -/
theorem migrateComments_not_per_comment_counterexample :
    commentFailW.getComments = .ok 2 ∧
    commentFailW.createComment 1 = .ok () ∧
    countCommentCreations
      (processIssue demoCfg commentFailW [] Stats.zero demoIssue).2.2 = 1 ∧
    (1 : Nat) ≠ 2 := by
  exact ⟨rfl, rfl, by decide, by decide⟩

/-! ## Lemmas: the main path ignores the prior mapping state -/

lemma processIssueMain_snd_ext (cfg : MigrationConfig) (w : World) (m m' : Mapping)
    (s0 : Stats) (issue : JiraIssue) :
    (processIssueMain cfg w m s0 issue).2 = (processIssueMain cfg w m' s0 issue).2 := by
  unfold processIssueMain
  cases hf : w.findExisting with
  | error e => rfl
  | ok o =>
    cases o with
    | some gh => rfl
    | none =>
      by_cases hdr : cfg.dryRun
      · rw [hdr]
        rfl
      · rw [Bool.not_eq_true] at hdr
        rw [hdr]
        rcases hconv : convertAndCreateIssue w issue s0 with ⟨res, st1, effs⟩
        cases res <;> rfl

lemma lookup_mappingSet_ext (m m' : Mapping) (key : String) (r : MappingRecord)
    (hmm : ∀ k, k ≠ key → alistLookup m k = alistLookup m' k) (k : String) :
    alistLookup (mappingSet m key r) k = alistLookup (mappingSet m' key r) k := by
  by_cases hk : k = key
  · subst hk
    rw [alistLookup_mappingSet_self, alistLookup_mappingSet_self]
  · rw [alistLookup_mappingSet_ne _ _ _ _ hk, alistLookup_mappingSet_ne _ _ _ _ hk]
    exact hmm k hk

lemma processIssueMain_lookup_ext (cfg : MigrationConfig) (w : World) (m m' : Mapping)
    (s0 : Stats) (issue : JiraIssue) (hdr : cfg.dryRun = false)
    (hmm : ∀ k, k ≠ issue.key → alistLookup m k = alistLookup m' k) :
    ∀ k, alistLookup (processIssueMain cfg w m s0 issue).1 k =
      alistLookup (processIssueMain cfg w m' s0 issue).1 k := by
  intro k
  unfold processIssueMain
  cases hf : w.findExisting with
  | error e => exact lookup_mappingSet_ext m m' issue.key (mkErrorRecord e) hmm k
  | ok o =>
    cases o with
    | some gh => exact lookup_mappingSet_ext m m' issue.key (mkExistingRecord gh) hmm k
    | none =>
      rw [hdr]
      rcases hconv : convertAndCreateIssue w issue s0 with ⟨res, st1, effs⟩
      cases res with
      | error e => exact lookup_mappingSet_ext m m' issue.key (mkErrorRecord e) hmm k
      | ok gh => exact lookup_mappingSet_ext m m' issue.key (mkMigratedRecord gh) hmm k

/-! ## Claim theorems: per-item failure handling and error retry (C6) -/

/-- C6.  Two halves.  (a) Whenever the non-skip path of `processIssue`
raises — `itemError` names the error the `try` block would throw for the
given collaborator outcomes — the call still returns (the batch and the
run continue), the key's mapping entry is overwritten with an
`error`-status record carrying the message, and the error counter is
incremented by one.  (b) An entry with status `error` is treated as unseen:
the call behaves exactly — same statistics, same trace, and (in a real,
non-dry-run migration) a mapping table with the same lookups — as if the
entry were absent; in particular the item is re-processed, not skipped. -/
theorem processIssue_error_recording (cfg : MigrationConfig) (w : World) (m : Mapping)
    (s : Stats) (issue : JiraIssue) :
    (∀ e, (∀ r, alistLookup m issue.key = some r →
        r.status ≠ "migrated" ∧ r.status ≠ "existing") →
      itemError cfg w issue = some e →
      alistLookup (processIssue cfg w m s issue).1 issue.key =
        some (mkErrorRecord e) ∧
      (processIssue cfg w m s issue).2.1.errors = s.errors + 1) ∧
    (∀ r, alistLookup m issue.key = some r → r.status = "error" →
      (processIssue cfg w m s issue).2.1 =
        (processIssue cfg w (alistErase m issue.key) s issue).2.1 ∧
      (processIssue cfg w m s issue).2.2 =
        (processIssue cfg w (alistErase m issue.key) s issue).2.2 ∧
      (cfg.dryRun = false → ∀ k,
        alistLookup (processIssue cfg w m s issue).1 k =
          alistLookup (processIssue cfg w (alistErase m issue.key) s issue).1 k)) := by
  constructor
  · intro e hns herr
    rcases processIssue_cases cfg w m s issue with ⟨r, hr, hst, _⟩ | ⟨_, heq⟩
    · rcases hst with h | h
      · exact absurd h (hns r hr).1
      · exact absurd h (hns r hr).2
    · rw [heq]
      unfold itemError at herr
      unfold processIssueMain
      cases hf : w.findExisting with
      | error e' =>
        rw [hf] at herr
        have he : e' = e := by injection herr
        rw [← he]
        exact ⟨alistLookup_mappingSet_self m issue.key (mkErrorRecord e'), rfl⟩
      | ok o =>
        cases o with
        | some gh =>
          rw [hf] at herr
          exact absurd herr (by simp)
        | none =>
          rw [hf] at herr
          cases hdr : cfg.dryRun with
          | true =>
            rw [hdr] at herr
            exact absurd herr (by simp)
          | false =>
            rw [hdr] at herr
            obtain ⟨st1, effs, hconv⟩ := convertAndCreateIssue_error w issue
              { s with processed := s.processed + 1 } e herr
            have hcs := convertAndCreateIssue_stats w issue
              { s with processed := s.processed + 1 }
            rw [hconv] at hcs
            rw [hconv]
            exact ⟨alistLookup_mappingSet_self m issue.key (mkErrorRecord e),
              congrArg (· + 1) hcs.2.2.2.1⟩
  · intro r hr hst
    have hmm : ∀ k, k ≠ issue.key →
        alistLookup m k = alistLookup (alistErase m issue.key) k :=
      fun k hk => (alistLookup_erase_ne m issue.key k hk).symm
    have heq1 : processIssue cfg w m s issue =
        processIssueMain cfg w m { s with processed := s.processed + 1 } issue := by
      rcases processIssue_cases cfg w m s issue with ⟨r', hr', hst', _⟩ | ⟨_, heq⟩
      · rw [hr] at hr'
        obtain rfl : r = r' := by injection hr'
        rcases hst' with h | h <;> rw [hst] at h <;> exact absurd h (by decide)
      · exact heq
    have heq2 : processIssue cfg w (alistErase m issue.key) s issue =
        processIssueMain cfg w (alistErase m issue.key)
          { s with processed := s.processed + 1 } issue := by
      rcases processIssue_cases cfg w (alistErase m issue.key) s issue with
        ⟨r', hr', _, _⟩ | ⟨_, heq⟩
      · rw [alistLookup_erase_self] at hr'
        exact absurd hr' (by simp)
      · exact heq
    rw [heq1, heq2]
    have hsnd := processIssueMain_snd_ext cfg w m (alistErase m issue.key)
      { s with processed := s.processed + 1 } issue
    refine ⟨congrArg Prod.fst hsnd, congrArg Prod.snd hsnd, fun hdr => ?_⟩
    exact processIssueMain_lookup_ext cfg w m (alistErase m issue.key)
      { s with processed := s.processed + 1 } issue hdr hmm

/-- Witness for C6: a failing destination search against a prior `error`
entry: the entry is overwritten with the new error, the error counter
becomes 1, and the trace equals the trace of a fresh, unseen item. -/
theorem processIssue_error_recording_witness :
    alistLookup (processIssue demoCfg findFailW
        [("X-1", ⟨none, none, "error", some "prev"⟩)] Stats.zero demoIssue).1 "X-1" =
      some ⟨none, none, "error", some "down"⟩ ∧
    (processIssue demoCfg findFailW [("X-1", ⟨none, none, "error", some "prev"⟩)]
        Stats.zero demoIssue).2.1.errors = 1 ∧
    (processIssue demoCfg findFailW [("X-1", ⟨none, none, "error", some "prev"⟩)]
        Stats.zero demoIssue).2.2 =
      (processIssue demoCfg findFailW
        (alistErase [("X-1", ⟨none, none, "error", some "prev"⟩)] "X-1")
        Stats.zero demoIssue).2.2 := by
  have h := processIssue_error_recording demoCfg findFailW
    [("X-1", ⟨none, none, "error", some "prev"⟩)] Stats.zero demoIssue
  have hns : ∀ r, alistLookup [("X-1", (⟨none, none, "error", some "prev"⟩ : MappingRecord))]
      demoIssue.key = some r → r.status ≠ "migrated" ∧ r.status ≠ "existing" := by
    intro r hr
    have hr' : some (⟨none, none, "error", some "prev"⟩ : MappingRecord) = some r := hr
    obtain rfl : (⟨none, none, "error", some "prev"⟩ : MappingRecord) = r := by
      injection hr'
    exact ⟨by decide, by decide⟩
  have ha := h.1 ⟨some 500, "down"⟩ hns rfl
  have hb := h.2 ⟨none, none, "error", some "prev"⟩ rfl rfl
  exact ⟨ha.1, ha.2, hb.2.1⟩

/-! ## Lemmas about checkpointing (mapping growth, save snapshots) -/

lemma saveSnapshots_append (a b : List Effect) :
    saveSnapshots (a ++ b) = saveSnapshots a ++ saveSnapshots b :=
  List.filterMap_append a b _

lemma alistLookup_append_none {β : Type} (m t : List (String × β)) (k : String)
    (h : alistLookup m k = none) : alistLookup (m ++ t) k = alistLookup t k := by
  induction m with
  | nil => rfl
  | cons p m' ih =>
    obtain ⟨k', v⟩ := p
    by_cases hkk : k' = k
    · rw [show alistLookup ((k', v) :: m') k = some v from by simp [alistLookup, hkk]] at h
      exact absurd h (by simp)
    · have h' : alistLookup m' k = none := by
        rw [show alistLookup ((k', v) :: m') k = alistLookup m' k from
          by simp [alistLookup, hkk]] at h
        exact h
      simp only [List.cons_append, alistLookup, hkk, if_false]
      exact ih h'

lemma alistLookup_not_mem {β : Type} (l : List (String × β)) (k : String)
    (h : k ∉ l.map Prod.fst) : alistLookup l k = none := by
  induction l with
  | nil => rfl
  | cons p t ih =>
    obtain ⟨k', v⟩ := p
    simp only [List.map_cons, List.mem_cons, not_or] at h
    have hkk : ¬ k' = k := fun hh => h.1 (hh.symm)
    simp only [alistLookup, hkk, if_false]
    exact ih h.2

lemma mappingSet_fresh (m : Mapping) (key : String) (r : MappingRecord)
    (hnew : alistLookup m key = none) : mappingSet m key r = m ++ [(key, r)] := by
  induction m with
  | nil => rfl
  | cons p t ih =>
    obtain ⟨k', v⟩ := p
    by_cases hkk : k' = key
    · rw [show alistLookup ((k', v) :: t) key = some v from by simp [alistLookup, hkk]] at hnew
      exact absurd hnew (by simp)
    · have h' : alistLookup t key = none := by
        rw [show alistLookup ((k', v) :: t) key = alistLookup t key from
          by simp [alistLookup, hkk]] at hnew
        exact hnew
      simp only [mappingSet, hkk, if_false, List.cons_append]
      rw [ih h']

lemma migrateCommentLoop_no_save (w : World) (jiraKey : String) :
    ∀ (n i : Nat) (s : Stats),
      saveSnapshots (migrateCommentLoop w jiraKey s i n).2 = [] := by
  intro n
  induction n with
  | zero => intro i s; rfl
  | succ k ih =>
    intro i s
    simp only [migrateCommentLoop]
    cases hc : w.createComment i with
    | error e => rfl
    | ok u => exact ih (i + 1) { s with comments := s.comments + 1 }

lemma migrateComments_no_save (w : World) (jiraKey : String) (s : Stats) :
    saveSnapshots (migrateComments w jiraKey s).2 = [] := by
  unfold migrateComments
  cases hg : w.getComments with
  | error e => rfl
  | ok n => exact migrateCommentLoop_no_save w jiraKey n 0 s

lemma convertAndCreateIssue_no_save (w : World) (issue : JiraIssue) (s : Stats) :
    saveSnapshots (convertAndCreateIssue w issue s).2.2 = [] := by
  unfold convertAndCreateIssue
  by_cases ha : issue.attachmentCount > 0
  · rw [if_pos ha]
    cases w.handleAttachments with
    | error e => rfl
    | ok t =>
      cases w.ensureLabels with
      | error e => rfl
      | ok u =>
        cases w.createIssue with
        | error e => rfl
        | ok gh => rfl
  · rw [if_neg ha]
    cases w.ensureLabels with
    | error e => rfl
    | ok u =>
      cases w.createIssue with
      | error e => rfl
      | ok gh => rfl

lemma processIssue_no_save (cfg : MigrationConfig) (w : World) (m : Mapping)
    (s : Stats) (issue : JiraIssue) :
    saveSnapshots (processIssue cfg w m s issue).2.2 = [] := by
  rcases processIssue_cases cfg w m s issue with ⟨r, _, _, heq⟩ | ⟨_, heq⟩
  · rw [heq]
    rfl
  · rw [heq]
    unfold processIssueMain
    cases hf : w.findExisting with
    | error e => rfl
    | ok o =>
      cases o with
      | some gh => rfl
      | none =>
        cases hdr : cfg.dryRun with
        | true => rfl
        | false =>
          rcases hconv : convertAndCreateIssue w issue
            { s with processed := s.processed + 1 } with ⟨res, st1, effs⟩
          have hcv := convertAndCreateIssue_no_save w issue
            { s with processed := s.processed + 1 }
          rw [hconv] at hcv
          cases res with
          | error e =>
            show saveSnapshots (Effect.findExisting issue.key :: effs) = []
            show saveSnapshots effs = []
            exact hcv
          | ok gh =>
            show saveSnapshots (Effect.findExisting issue.key :: effs ++
              (migrateComments w issue.key st1).2) = []
            show saveSnapshots (effs ++ (migrateComments w issue.key st1).2) = []
            rw [saveSnapshots_append, hcv, migrateComments_no_save]
            rfl

lemma processIssue_fresh (cfg : MigrationConfig) (w : World) (m : Mapping)
    (s : Stats) (issue : JiraIssue) (hdr : cfg.dryRun = false)
    (hnew : alistLookup m issue.key = none) :
    ∃ r, (processIssue cfg w m s issue).1 = m ++ [(issue.key, r)] := by
  rcases processIssue_cases cfg w m s issue with ⟨r, hr, _, _⟩ | ⟨_, heq⟩
  · rw [hnew] at hr
    exact absurd hr (by simp)
  · rw [heq]
    unfold processIssueMain
    cases hf : w.findExisting with
    | error e => exact ⟨mkErrorRecord e, mappingSet_fresh m issue.key _ hnew⟩
    | ok o =>
      cases o with
      | some gh => exact ⟨mkExistingRecord gh, mappingSet_fresh m issue.key _ hnew⟩
      | none =>
        rw [hdr]
        rcases hconv : convertAndCreateIssue w issue
          { s with processed := s.processed + 1 } with ⟨res, st1, effs⟩
        cases res with
        | error e => exact ⟨mkErrorRecord e, mappingSet_fresh m issue.key _ hnew⟩
        | ok gh => exact ⟨mkMigratedRecord gh, mappingSet_fresh m issue.key _ hnew⟩

lemma processBatch_fresh (cfg : MigrationConfig) (env : String → World)
    (hdr : cfg.dryRun = false) :
    ∀ (items : List JiraIssue) (m : Mapping) (s : Stats),
      (∀ i ∈ items, alistLookup m i.key = none) →
      (items.map JiraIssue.key).Nodup →
      ∃ tail : Mapping, (processBatch cfg env items m s).1 = m ++ tail ∧
        tail.map Prod.fst = items.map JiraIssue.key ∧
        saveSnapshots (processBatch cfg env items m s).2.2 = [] := by
  intro items
  induction items with
  | nil =>
    intro m s _ _
    exact ⟨[], by simp [processBatch], rfl, rfl⟩
  | cons i rest ih =>
    intro m s hfresh hnodup
    obtain ⟨r, hr⟩ := processIssue_fresh cfg (env i.key) m s i hdr
      (hfresh i (by simp))
    rw [List.map_cons, List.nodup_cons] at hnodup
    have hfresh' : ∀ j ∈ rest,
        alistLookup (processIssue cfg (env i.key) m s i).1 j.key = none := by
      intro j hj
      rw [hr]
      have h1 : alistLookup m j.key = none := hfresh j (by simp [hj])
      rw [alistLookup_append_none _ _ _ h1]
      have hne : ¬ i.key = j.key := by
        intro hcontra
        exact hnodup.1 (by rw [hcontra]; exact List.mem_map_of_mem JiraIssue.key hj)
      simp [alistLookup, hne]
    obtain ⟨tail, htail, hkeys, hnosave⟩ :=
      ih (processIssue cfg (env i.key) m s i).1
        (processIssue cfg (env i.key) m s i).2.1 hfresh' hnodup.2
    refine ⟨(i.key, r) :: tail, ?_, ?_, ?_⟩
    · show (processBatch cfg env rest (processIssue cfg (env i.key) m s i).1
          (processIssue cfg (env i.key) m s i).2.1).1 = m ++ ((i.key, r) :: tail)
      rw [htail, hr, List.append_assoc]
      rfl
    · show Prod.fst (i.key, r) :: tail.map Prod.fst = i.key :: rest.map JiraIssue.key
      rw [hkeys]
    · show saveSnapshots ((processIssue cfg (env i.key) m s i).2.2 ++
        (processBatch cfg env rest (processIssue cfg (env i.key) m s i).1
          (processIssue cfg (env i.key) m s i).2.1).2.2) = []
      rw [saveSnapshots_append, processIssue_no_save, hnosave]
      rfl

lemma runBatches_saves (cfg : MigrationConfig) (env : String → World)
    (hdr : cfg.dryRun = false) :
    ∀ (bs : List (List JiraIssue)) (m : Mapping) (s : Stats),
      (∀ i ∈ bs.flatten, alistLookup m i.key = none) →
      ((bs.flatten).map JiraIssue.key).Nodup →
      ((saveSnapshots (runBatches cfg env bs m s).2.2).map List.length =
        runningTotals m.length (bs.map List.length)) ∧
      (runBatches cfg env bs m s).1.length = m.length + (bs.flatten).length := by
  intro bs
  induction bs with
  | nil => intro m s _ _; exact ⟨rfl, by simp [runBatches]⟩
  | cons b bs' ih =>
    intro m s hfresh hnodup
    rw [List.flatten_cons] at hfresh hnodup
    rw [List.map_append, List.nodup_append] at hnodup
    have hfb : ∀ i ∈ b, alistLookup m i.key = none :=
      fun i hi => hfresh i (List.mem_append_left _ hi)
    obtain ⟨tail, htail, hkeys, hnosave⟩ :=
      processBatch_fresh cfg env hdr b m s hfb hnodup.1
    have hlen_tail : tail.length = b.length := by
      rw [← List.length_map tail Prod.fst, hkeys, List.length_map]
    have hm1len : (processBatch cfg env b m s).1.length = m.length + b.length := by
      rw [htail, List.length_append, hlen_tail]
    have hfresh' : ∀ i ∈ bs'.flatten,
        alistLookup (processBatch cfg env b m s).1 i.key = none := by
      intro i hi
      rw [htail]
      have h1 : alistLookup m i.key = none := hfresh i (List.mem_append_right _ hi)
      rw [alistLookup_append_none _ _ _ h1]
      apply alistLookup_not_mem
      rw [hkeys]
      intro hmem
      exact (hnodup.2.2 hmem) (List.mem_map_of_mem JiraIssue.key hi)
    obtain ⟨hsv, hlen⟩ := ih (processBatch cfg env b m s).1
      (processBatch cfg env b m s).2.1 hfresh' hnodup.2.1
    constructor
    · show (saveSnapshots ((processBatch cfg env b m s).2.2 ++
        Effect.saveMapping (processBatch cfg env b m s).1 ::
          (runBatches cfg env bs' (processBatch cfg env b m s).1
            (processBatch cfg env b m s).2.1).2.2)).map List.length =
        runningTotals m.length (b.length :: bs'.map List.length)
      rw [saveSnapshots_append, hnosave]
      show ((processBatch cfg env b m s).1 ::
        saveSnapshots (runBatches cfg env bs' (processBatch cfg env b m s).1
          (processBatch cfg env b m s).2.1).2.2).map List.length =
        runningTotals m.length (b.length :: bs'.map List.length)
      rw [List.map_cons, hsv, hm1len]
      rfl
    · show (runBatches cfg env bs' (processBatch cfg env b m s).1
          (processBatch cfg env b m s).2.1).1.length = m.length + (b ++ bs'.flatten).length
      rw [hlen, hm1len, List.length_append]
      omega

lemma chunkArray_nil {α : Type} (size : Nat) : chunkArray ([] : List α) size = [] := by
  rw [chunkArray]
  simp

lemma chunkArray_unfold {α : Type} (l : List α) (size : Nat) (hl : l ≠ [])
    (hs : size ≠ 0) :
    chunkArray l size = l.take size :: chunkArray (l.drop size) size := by
  rw [chunkArray]
  rw [if_neg (by simpa [List.isEmpty_iff] using hl), if_neg hs]

lemma chunkArray_join_aux {α : Type} (size : Nat) (hs : size ≠ 0) :
    ∀ (n : Nat) (l : List α), l.length ≤ n → (chunkArray l size).flatten = l := by
  intro n
  induction n with
  | zero =>
    intro l hl
    have : l = [] := List.eq_nil_of_length_eq_zero (by omega)
    rw [this, chunkArray_nil]
    rfl
  | succ k ih =>
    intro l hl
    cases hemp : l with
    | nil => rw [chunkArray_nil]; rfl
    | cons a t =>
      rw [← hemp]
      rw [chunkArray_unfold l size (by rw [hemp]; simp) hs]
      rw [List.flatten_cons]
      rw [ih (l.drop size) (by
        rw [List.length_drop]
        have : 0 < l.length := by rw [hemp]; simp
        omega)]
      exact List.take_append_drop size l

lemma chunkArray_join {α : Type} (l : List α) (size : Nat) (hs : size ≠ 0) :
    (chunkArray l size).flatten = l :=
  chunkArray_join_aux size hs l.length l le_rfl

lemma chunkArray_lengths_23_10 {α : Type} (l : List α) (h : l.length = 23) :
    (chunkArray l 10).map List.length = [10, 10, 3] := by
  have h1 : l ≠ [] := by intro h'; rw [h'] at h; simp at h
  rw [chunkArray_unfold l 10 h1 (by omega)]
  have hd1 : (l.drop 10).length = 13 := by rw [List.length_drop, h]
  have h2 : l.drop 10 ≠ [] := by
    intro h'; rw [h'] at hd1; simp at hd1
  rw [chunkArray_unfold _ 10 h2 (by omega)]
  have hd2 : ((l.drop 10).drop 10).length = 3 := by rw [List.length_drop, hd1]
  have h3 : (l.drop 10).drop 10 ≠ [] := by
    intro h'; rw [h'] at hd2; simp at hd2
  rw [chunkArray_unfold _ 10 h3 (by omega)]
  have hd3 : (((l.drop 10).drop 10).drop 10).length = 0 := by
    rw [List.length_drop, hd2]
  rw [List.eq_nil_of_length_eq_zero hd3, chunkArray_nil]
  simp [List.length_take, h, hd1, hd2]

/-- The checkpoint behaviour of a 23-item, batch-size-10 run: shared core
used by the claim theorem and the counterexample. -/
lemma migrateRun_saves_core (cfg : MigrationConfig) (env : String → World)
    (issues : List JiraIssue) (s : Stats)
    (hdr : cfg.dryRun = false) (hbs : cfg.batchSize = 10)
    (hlen : issues.length = 23) (hnodup : (issues.map JiraIssue.key).Nodup) :
    (saveSnapshots (processIssuesBatch cfg env issues [] s).2.2).map List.length =
      [10, 20, 23] ∧
    (saveSnapshots (migrateRun cfg env issues [] s).2.2).map List.length =
      [10, 20, 23, 23] := by
  have hjoin : (chunkArray issues cfg.batchSize).flatten = issues := by
    rw [hbs]; exact chunkArray_join issues 10 (by omega)
  obtain ⟨hsv, hflen⟩ := runBatches_saves cfg env hdr (chunkArray issues cfg.batchSize)
    [] s (by rw [hjoin]; intro i _; rfl) (by rw [hjoin]; exact hnodup)
  have hchunks : (chunkArray issues cfg.batchSize).map List.length = [10, 10, 3] := by
    rw [hbs]; exact chunkArray_lengths_23_10 issues hlen
  have hbatch : (saveSnapshots (processIssuesBatch cfg env issues [] s).2.2).map
      List.length = [10, 20, 23] := by
    show (saveSnapshots (runBatches cfg env (chunkArray issues cfg.batchSize)
      [] s).2.2).map List.length = [10, 20, 23]
    rw [hsv, hchunks]
    rfl
  refine ⟨hbatch, ?_⟩
  have hfinal : (processIssuesBatch cfg env issues [] s).1.length = 23 := by
    show (runBatches cfg env (chunkArray issues cfg.batchSize) [] s).1.length = 23
    rw [hflen, hjoin, hlen]
    rfl
  show (saveSnapshots ((processIssuesBatch cfg env issues [] s).2.2 ++
    [Effect.saveMapping (processIssuesBatch cfg env issues [] s).1])).map
      List.length = [10, 20, 23, 23]
  rw [saveSnapshots_append, List.map_append, hbatch]
  show [10, 20, 23] ++ [(processIssuesBatch cfg env issues [] s).1.length] =
    [10, 20, 23, 23]
  rw [hfinal]
  rfl

/-! ## Claim theorems: checkpoint granularity (C3) -/

/-- C3 (amended).  With 23 items (pairwise distinct keys, no prior mapping,
not a dry run) and batch size 10, the batch loop writes the Mapping Store
exactly 3 times — after the completed batches of 10, 10 and 3 items, with
snapshots of exactly 10, 20 and 23 records, so a crash after the 2nd write
leaves exactly 20 persisted records — and the full `migrate()` run then
adds one final (redundant) write of the complete 23-record table, for 4
writes in total. -/
theorem checkpoint_granularity_23_10 (cfg : MigrationConfig) (env : String → World)
    (issues : List JiraIssue) (s : Stats)
    (hdr : cfg.dryRun = false) (hbs : cfg.batchSize = 10)
    (hlen : issues.length = 23) (hnodup : (issues.map JiraIssue.key).Nodup) :
    (saveSnapshots (processIssuesBatch cfg env issues [] s).2.2).map List.length =
      [10, 20, 23] ∧
    (saveSnapshots (migrateRun cfg env issues [] s).2.2).map List.length =
      [10, 20, 23, 23] :=
  migrateRun_saves_core cfg env issues s hdr hbs hlen hnodup

/-- Witness for C3 (amended): the 23 concrete items `K-1` … `K-23` under an
all-success world. -/
theorem checkpoint_granularity_23_10_witness :
    (saveSnapshots (processIssuesBatch demoCfg (fun _ => okW) demoIssues23 []
      Stats.zero).2.2).map List.length = [10, 20, 23] ∧
    (saveSnapshots (migrateRun demoCfg (fun _ => okW) demoIssues23 []
      Stats.zero).2.2).map List.length = [10, 20, 23, 23] := by
  exact checkpoint_granularity_23_10 demoCfg (fun _ => okW) demoIssues23 Stats.zero
    rfl rfl (by decide) (by decide)

/-- Counterexample to C3 as stated: one full run does not write the Mapping
Store exactly 3 times — `migrate()` performs a final extra write after the
batch loop (line 70), so a 23-item, batch-size-10 run writes it 4 times. -/
theorem migrateRun_write_count_counterexample :
    (saveSnapshots (migrateRun demoCfg (fun _ => okW) demoIssues23 []
      Stats.zero).2.2).length = 4 ∧ (4 : Nat) ≠ 3 := by
  have h := (migrateRun_saves_core demoCfg (fun _ => okW) demoIssues23 Stats.zero
    rfl rfl (by decide) (by decide)).2
  constructor
  · have h2 := congrArg List.length h
    rw [List.length_map] at h2
    exact h2
  · decide

end GitPorter
